import Mathlib

/-!
Verification development for the statistics-extraction and adjoint-differentiation
core of a qubit-device simulator (`pennylane/_qubit_device.py`).

The Python source is shallowly embedded: numpy integer arrays become `List Nat`,
probability vectors become `List ℚ` (exact arithmetic standing in for float64),
raised exceptions become `Except QErr`, and the external collaborators named in
the specification (the state-evolution kernel `_apply_operation` / `_apply_unitary`,
`operation_derivative`, `op.decomposition()`, eigenvalue access, the random
sampler) are passed in as explicit function parameters.
-/

deriving instance DecidableEq for Except

/-- Measurement kinds imported by the source
(`Expectation`, `Variance`, `Sample`, `Probability`, `State`, `VnEntropy`,
`MutualInfo`); `other` stands for any further `return_type` value the
dispatcher does not recognise. -/
inductive RetType where
  | expectation
  | variance
  | sample
  | probability
  | state
  | vnEntropy
  | mutualInfo
  | other (tag : String)
  deriving DecidableEq, Repr

/-- Exceptions raised by the embedded code paths. -/
inductive QErr where
  /-- QuantumFunctionError: adjoint differentiation does not support this
  measurement return type (`adjoint_jacobian`, lines 1049-1053). -/
  | unsupportedReturnType (rt : RetType)
  /-- QuantumFunctionError: adjoint differentiation does not support Hamiltonian
  observables (lines 1055-1058). -/
  | unsupportedHamiltonian
  /-- AttributeError: the source formats the error message with
  `m.return_type.value`, which fails when `return_type` is Python `None`. -/
  | attributeError
  /-- QuantumFunctionError: multi-parameter operation other than a non-inverted
  `Rot` in the adjoint expansion (lines 1091-1094). -/
  | unsupportedAdjointOperation (opName : String)
  /-- QuantumFunctionError: unsupported (non-None, unrecognised) return type in
  `statistics` (lines 516-519). -/
  | unsupportedMeasurement (obsName : String)
  /-- QuantumFunctionError: state cannot be returned with other return types
  (lines 486-490). -/
  | stateWithOtherMeasurements
  /-- QuantumFunctionError: custom wire labels for state/entropy returns
  (lines 491-494, 500-503, 507-510). -/
  | customWireLabels
  /-- QuantumFunctionError: shots must be set for sample-based measurements
  (`sample_basis_states`, lines 586-590). -/
  | shotsRequired
  /-- TypeError: `self._samples[...]` subscripting when `_samples` is `None`
  (`estimate_probability`, line 790). -/
  | typeErrorNoneSubscript
  /-- ValueError: `np.fromiter(...).reshape(-1, num_wires)` cannot resolve the
  unknown dimension when `num_wires = 0` (`generate_basis_states`, lines 630-632). -/
  | valueErrorReshape
  /-- An exception propagated out of an external collaborator call. -/
  | externalError (msg : String)
  deriving DecidableEq, Repr

/-- Non-fatal warnings emitted via `warnings.warn`. -/
inductive QWarn where
  /-- UserWarning: adjoint differentiation requested with finite shots
  (lines 1063-1068). -/
  | finiteShotsAdjoint
  /-- UserWarning: differentiating with respect to parameters of a measured
  observable is not supported; the parameter is skipped (lines 1102-1111). -/
  | observableParamSkipped
  deriving DecidableEq, Repr

/-- Device configuration: canonical wire labels, their count, and the shot
setting (`None` for analytic mode). -/
structure DeviceCfg where
  numWires : Nat
  wiresLabels : List Nat
  shots : Option Nat
  deriving DecidableEq, Repr

/-! ### Basis-state codec (`states_to_binary`, `generate_basis_states`) -/

/-- One entry of `(samples[:, None] & (1 << np.arange(num_wires)) > 0).astype(dtype)`:
the j-th little-endian bit of `sample` as 0/1 (`states_to_binary`, lines 650-652). -/
def bitAt (sample j : Nat) : Nat :=
  if 0 < sample &&& (1 <<< j) then 1 else 0

/-- Embedding of `QubitDevice.states_to_binary` for a single sample: the
little-endian bit row is built from `1 << arange(num_wires)` masks and then
column-reversed (`[:, ::-1]`), yielding the most-significant-wire-first bit
vector (lines 634-652). -/
def statesToBinary (sample numWires : Nat) : List Nat :=
  ((List.range numWires).map (fun j => bitAt sample j)).reverse

/-- Embedding of the big-endian positional encoding
`samples @ (2 ** np.arange(k)[::-1])` used by `estimate_probability`
(lines 792-794), `marginal_prob` (lines 900-901) and `sample` (lines 991-992);
the weight of position j in a length-k row is `2 ^ (k - 1 - j)`. -/
def bitsToIndex (bits : List Nat) : Nat :=
  (List.zipWith (fun b p => b * p) bits (((List.range bits.length).reverse).map (2 ^ ·))).sum

/-- Embedding of `itertools.product((0, 1), repeat=numWires)` (lines 629-632):
the rows in lexicographic order, first factor varying slowest.  The source
flattens the generator with `itertools.chain` and reshapes to `(-1, num_wires)`
rows; for `numWires ≥ 1` that round-trips to exactly this row list. -/
def itertoolsProduct : Nat → List (List Nat)
  | 0 => [[]]
  | n + 1 =>
      ((itertoolsProduct n).map (fun t => 0 :: t)) ++
        ((itertoolsProduct n).map (fun t => 1 :: t))

/-- The vectorized path of `generate_basis_states`:
`states_to_binary(np.arange(2 ** num_wires), num_wires)` (lines 624-626). -/
def generateBasisStatesFast (numWires : Nat) : List (List Nat) :=
  (List.range (2 ^ numWires)).map (fun i => statesToBinary i numWires)

/-- Embedding of `QubitDevice.generate_basis_states` (lines 597-632): the
vectorized path for `2 < num_wires < 32`, otherwise the `itertools.product`
generator path.  On the generator path with `num_wires = 0` the source's
`np.fromiter(...).reshape(-1, num_wires)` raises a ValueError because the
unknown dimension cannot be resolved against a zero-sized axis. -/
def generateBasisStates (numWires : Nat) : Except QErr (List (List Nat)) :=
  if 2 < numWires ∧ numWires < 32 then
    .ok (generateBasisStatesFast numWires)
  else if numWires = 0 then
    .error QErr.valueErrorReshape
  else
    .ok (itertoolsProduct numWires)

/-! ### Probability engine (`estimate_probability`, `probability`, `marginal_prob`) -/

/-- A probability result: a vector when no `bin_size` is given, a
`(2 ** k) × bins` matrix otherwise. -/
inductive ProbResult where
  | vec (v : List ℚ)
  | mat (m : List (List ℚ))
  deriving DecidableEq, Repr

/-- Embedding of `wires = wires or self.wires` (line 783): Python treats both
`None` and an empty wire collection as falsy and substitutes the device wires. -/
def effectiveWires (dev : DeviceCfg) (wires : Option (List Nat)) : List Nat :=
  match wires with
  | none => dev.wiresLabels
  | some [] => dev.wiresLabels
  | some ws => ws

/-- Embedding of `self.map_wires(wires)`: each wire label is translated to its
position in the device's canonical wire order. -/
def mapWires (dev : DeviceCfg) (ws : List Nat) : List Nat :=
  ws.map (fun w => dev.wiresLabels.findIdx (fun l => l = w))

/-- Embedding of the row slice `samples[sample_slice]` where `sample_slice` is
`Ellipsis` when `shot_range` is unset and `slice(*shot_range)` otherwise
(lines 789-790). -/
def sliceRows (rows : List (List Nat)) (shotRange : Option (Nat × Nat)) : List (List Nat) :=
  match shotRange with
  | none => rows
  | some (a, b) => (rows.drop a).take (b - a)

/-- The selected sample block `self._samples[sample_slice, device_wires]`
(line 790): slice the rows, then gather the mapped wire columns of each row. -/
def selectedSamples (dev : DeviceCfg) (smp : List (List Nat)) (wires : Option (List Nat))
    (shotRange : Option (Nat × Nat)) : List (List Nat) :=
  (sliceRows smp shotRange).map
    (fun r => (mapWires dev (effectiveWires dev wires)).map (fun c => r.getD c 0))

/-- The per-shot basis indices `indices = samples @ powers_of_two` with
`powers_of_two = 2 ** np.arange(len(device_wires))[::-1]` (lines 793-794).
Every selected row has length `len(device_wires)`, so the shared big-endian
encoder applies. -/
def sampleIndices (dev : DeviceCfg) (smp : List (List Nat)) (wires : Option (List Nat))
    (shotRange : Option (Nat × Nat)) : List Nat :=
  (selectedSamples dev smp wires shotRange).map bitsToIndex

/-- The unbinned probability vector of `estimate_probability` (lines 808-811):
`np.unique` counts each occurring basis state, the counts are scattered into a
zero vector of length `2 ** len(device_wires)` and divided by the number of
selected samples; absent basis states keep the value 0. -/
def estProbVec (dev : DeviceCfg) (smp : List (List Nat)) (wires : Option (List Nat))
    (shotRange : Option (Nat × Nat)) : List ℚ :=
  let indices := sampleIndices dev smp wires shotRange
  let numSamples := (selectedSamples dev smp wires shotRange).length
  (List.range (2 ^ (mapWires dev (effectiveWires dev wires)).length)).map
    (fun j => if 0 < indices.count j then (indices.count j : ℚ) / (numSamples : ℚ) else 0)

/-- The binned probability matrix of `estimate_probability` (lines 797-806):
the index stream is reshaped into `bins = len(samples) // bin_size` consecutive
chunks, and each chunk's counts are divided by `bin_size`.  Entry `(j, b)` of
the result is the estimate for basis state `j` in bin `b`. -/
def estProbMat (dev : DeviceCfg) (smp : List (List Nat)) (wires : Option (List Nat))
    (shotRange : Option (Nat × Nat)) (binSize : Nat) : List (List ℚ) :=
  let indices := sampleIndices dev smp wires shotRange
  let bins := (selectedSamples dev smp wires shotRange).length / binSize
  let chunkLen := if bins = 0 then 0 else indices.length / bins
  let chunks := (List.range bins).map (fun b => (indices.drop (b * chunkLen)).take chunkLen)
  (List.range (2 ^ (mapWires dev (effectiveWires dev wires)).length)).map
    (fun j => chunks.map
      (fun c => if 0 < c.count j then (c.count j : ℚ) / (binSize : ℚ) else 0))

/-- Embedding of `QubitDevice.estimate_probability` (lines 766-813).  The
method performs no shot-count check of its own: when the device never generated
samples (`self._samples is None`, as in analytic mode) the row subscript on
line 790 raises a TypeError. -/
def estimateProbability (dev : DeviceCfg) (samples : Option (List (List Nat)))
    (wires : Option (List Nat)) (shotRange : Option (Nat × Nat)) (binSize : Option Nat) :
    Except QErr ProbResult :=
  match samples with
  | none => .error QErr.typeErrorNoneSubscript
  | some smp =>
    match binSize with
    | none => .ok (ProbResult.vec (estProbVec dev smp wires shotRange))
    | some b => .ok (ProbResult.mat (estProbMat dev smp wires shotRange b))

/-- Embedding of `QubitDevice.probability` (lines 815-833): the analytic
distribution (supplied by the state-holding collaborator `analytic_probability`)
when the device has no shots, the sample estimate otherwise; `shot_range` and
`bin_size` are not consulted on the analytic branch. -/
def probability (dev : DeviceCfg)
    (analyticProbability : Option (List Nat) → Except QErr (List ℚ))
    (samples : Option (List (List Nat))) (wires : Option (List Nat))
    (shotRange : Option (Nat × Nat)) (binSize : Option Nat) : Except QErr ProbResult :=
  match dev.shots with
  | none =>
    match analyticProbability wires with
    | .error e => .error e
    | .ok p => .ok (ProbResult.vec p)
  | some _ => estimateProbability dev samples wires shotRange binSize

/-- Embedding of `QubitDevice.sample_basis_states` (lines 573-595): in analytic
mode the explicit shots check raises; otherwise `np.random.choice` draws the
shots, modelled by the external `sampler`. -/
def sampleBasisStates (dev : DeviceCfg) (sampler : Nat → List Nat → List ℚ → List Nat)
    (numberOfStates : Nat) (stateProbability : List ℚ) : Except QErr (List Nat) :=
  match dev.shots with
  | none => .error QErr.shotsRequired
  | some shots => .ok (sampler shots (List.range numberOfStates) stateProbability)

/-- The MSB-first bit of flat row-major index `i` along axis `a` of a
`[2] * numWires` tensor: axis `a` carries weight `2 ^ (numWires - 1 - a)`. -/
def axisBits (i numWires : Nat) (axes : List Nat) : List Nat :=
  axes.map (fun a => bitAt i (numWires - 1 - a))

/-- Semantics of `self._flatten(self._reduce_sum(self._reshape(prob,
[2] * num_wires), inactive_axes))` (lines 883-891): the probability vector is
viewed as a rank-`numWires` tensor with one size-2 axis per wire, the inactive
axes are summed out, and the remaining axes (in ascending axis order) are
flattened row-major.  Entry `j` collects every flat index `i` whose bits along
the remaining axes spell out `j`. -/
def sumAxesFlatten (numWires : Nat) (prob : List ℚ) (inactiveAxes : List Nat) : List ℚ :=
  let active := (List.range numWires).filter (fun a => !inactiveAxes.contains a)
  (List.range (2 ^ active.length)).map
    (fun j =>
      (((List.range (2 ^ numWires)).filter
          (fun i => axisBits i numWires active = statesToBinary j active.length)).map
        (fun i => prob.getD i 0)).sum)

/-- Stable insertion of index `i` into an index list sorted by `key`. -/
def insertByKey (key : Nat → Nat) (i : Nat) : List Nat → List Nat
  | [] => [i]
  | j :: rest => if key i < key j then i :: j :: rest else j :: insertByKey key i rest

/-- Embedding of `np.argsort` on a list of distinct naturals: the index
permutation that sorts the values ascending (lines 176, 898).  The wires fed to
it are unique, so ties never arise. -/
def argsort (l : List Nat) : List Nat :=
  (List.range l.length).foldr (insertByKey (fun i => l.getD i 0)) []

/-- Embedding of `QubitDevice.marginal_prob` (lines 835-902).  `None` wires
short-circuit to the input; otherwise the inactive wires
(`Wires.unique_wires([self.wires, wires])`) are summed out, and the flattened
result is permuted via the double-argsort trick over the generated basis
states.  An empty (but not `None`) wire list is not short-circuited: it
marginalizes everything and reaches `generate_basis_states(0)`, which raises. -/
def marginalProb (dev : DeviceCfg) (prob : List ℚ) (wires : Option (List Nat)) :
    Except QErr (List ℚ) :=
  match wires with
  | none => .ok prob
  | some ws =>
    let inactiveWires :=
      dev.wiresLabels.filter (fun w => !ws.contains w) ++
        ws.filter (fun w => !dev.wiresLabels.contains w)
    let deviceWires := mapWires dev ws
    let inactiveDeviceWires := mapWires dev inactiveWires
    let summed := sumAxesFlatten dev.numWires prob inactiveDeviceWires
    match generateBasisStates deviceWires.length with
    | .error e => .error e
    | .ok basisStates =>
      let colPerm := argsort (argsort deviceWires)
      let permutedRows := basisStates.map (fun row => colPerm.map (fun c => row.getD c 0))
      let perm := permutedRows.map bitsToIndex
      .ok (perm.map (fun p => summed.getD p 0))

/-! ### Statistics dispatcher (`statistics`) -/

/-- A requested measurement as seen by `statistics`: its declared
`return_type`, observable name, wires, the raw wire pair consumed by the
mutual-information branch, and the entropy log base. -/
structure MP where
  returnType : Option RetType
  name : String
  wires : List Nat
  rawWires0 : List Nat
  rawWires1 : List Nat
  logBase : Option ℚ
  deriving DecidableEq, Repr

/-- The per-measurement computations `statistics` dispatches to.  They are the
device methods `expval`, `var`, `sample`, `probability`, `access_state`,
`vn_entropy` and `mutual_info`; each may raise (eigenvalues undefined, state
unavailable, ...), which is modelled by `Except`. -/
structure StatsCtx (R : Type) where
  expval : MP → Option (Nat × Nat) → Option Nat → Except QErr R
  var : MP → Option (Nat × Nat) → Option Nat → Except QErr R
  sample : MP → Option (Nat × Nat) → Option Nat → Except QErr R
  probability : List Nat → Option (Nat × Nat) → Option Nat → Except QErr R
  accessState : List Nat → Except QErr R
  vnEntropy : List Nat → Option ℚ → Except QErr R
  mutualInfo : List Nat → List Nat → Option ℚ → Except QErr R

/-- One arm of the `statistics` dispatch (lines 469-519) for a measurement
whose `return_type` is not `None`.  `numObs` is the length of the full
requested observable list, used by the state branch's exclusivity check. -/
def statsDispatch {R : Type} (ctx : StatsCtx R) (dev : DeviceCfg) (numObs : Nat)
    (shotRange : Option (Nat × Nat)) (binSize : Option Nat) (o : MP) (rt : RetType) :
    Except QErr R :=
  match rt with
  | .expectation => ctx.expval o shotRange binSize
  | .variance => ctx.var o shotRange binSize
  | .sample => ctx.sample o shotRange binSize
  | .probability => ctx.probability o.wires shotRange binSize
  | .state =>
    if 1 < numObs then .error QErr.stateWithOtherMeasurements
    else if dev.wiresLabels ≠ List.range dev.numWires then .error QErr.customWireLabels
    else ctx.accessState o.wires
  | .vnEntropy =>
    if dev.wiresLabels ≠ List.range dev.numWires then .error QErr.customWireLabels
    else ctx.vnEntropy o.wires o.logBase
  | .mutualInfo =>
    if dev.wiresLabels ≠ List.range dev.numWires then .error QErr.customWireLabels
    else ctx.mutualInfo o.rawWires0 o.rawWires1 o.logBase
  | .other _ => .error (QErr.unsupportedMeasurement o.name)

/-- The `statistics` loop (lines 467-521): one dispatched entry is appended per
observable, except that a measurement whose `return_type` is `None` matches no
branch (the final `elif` only fires for non-None types) and is silently
skipped.  Any raised error aborts the whole computation. -/
def statisticsAux {R : Type} (ctx : StatsCtx R) (dev : DeviceCfg) (numObs : Nat)
    (shotRange : Option (Nat × Nat)) (binSize : Option Nat) :
    List MP → Except QErr (List R)
  | [] => .ok []
  | o :: rest =>
    match o.returnType with
    | none => statisticsAux ctx dev numObs shotRange binSize rest
    | some rt =>
      match statsDispatch ctx dev numObs shotRange binSize o rt with
      | .error e => .error e
      | .ok res =>
        match statisticsAux ctx dev numObs shotRange binSize rest with
        | .error e => .error e
        | .ok tail => .ok (res :: tail)

/-- Embedding of `QubitDevice.statistics` (lines 421-521). -/
def statistics {R : Type} (ctx : StatsCtx R) (dev : DeviceCfg) (observables : List MP)
    (shotRange : Option (Nat × Nat)) (binSize : Option Nat) : Except QErr (List R) :=
  statisticsAux ctx dev observables.length shotRange binSize observables

/-! ### Adjoint-Jacobian engine (`adjoint_jacobian`) -/

/-- An observable as consumed by the adjoint engine (`m.obs` / `tape.observables`). -/
structure Obs where
  name : String
  wires : List Nat
  deriving DecidableEq, Repr

/-- A tape measurement: its `return_type` and its observable. -/
structure Measurement where
  returnType : Option RetType
  obs : Obs
  deriving DecidableEq, Repr

/-- A tape operation: the fields of `~.Operation` read by `adjoint_jacobian`
(`name`, `num_params`, `inverse`, `grad_method`, `wires`). -/
structure Operation where
  name : String
  numParams : Nat
  inverse : Bool
  gradMethod : Option String
  wires : List Nat
  deriving DecidableEq, Repr

/-- In-place `op.inv()` (lines 1124, 1140): toggles the inversion flag. -/
def Operation.invToggle (op : Operation) : Operation :=
  { op with inverse := !op.inverse }

/-- A quantum tape: measurements, observables, operations, the declared
trainable parameter indices, and the `tape._par_info[k]["op"]` lookup
abbreviated to whether the owning operation is a measurement observable
(`hasattr(..., "return_type")`, line 1102). -/
structure Tape where
  measurements : List Measurement
  observables : List Obs
  operations : List Operation
  trainableParams : List Nat
  parIsMeasurement : Nat → Bool

/-- The external collaborators `adjoint_jacobian` consumes: the state-evolution
kernel `_apply_operation` / `_apply_unitary`, `operation_derivative`,
`op.decomposition()`, the broadcast real inner product over all wire axes, and
the initial states (`_pre_rotated_state`, or the state left by a fresh
`reset(); execute(tape)`).  `S` is the state-tensor type, `M` the derivative
matrix type. -/
structure Backend (S M : Type) where
  applyOperation : S → Operation → S
  applyObservable : S → Obs → S
  applyUnitary : S → M → List Nat → S
  operationDerivative : Operation → M
  decompositionOf : Operation → List Operation
  dotProductReal : S → S → ℚ
  preRotatedState : S
  executedState : S

/-- The measurement precondition loop of `adjoint_jacobian` (lines 1048-1061):
each measurement must be an Expectation (otherwise the unsupported-return-type
error is raised, with an AttributeError instead when `return_type` is `None`
because the message formats `m.return_type.value`), and an Expectation of a
Hamiltonian raises the Hamiltonian error. -/
def checkMeasurements : List Measurement → Except QErr Unit
  | [] => .ok ()
  | m :: rest =>
    if m.returnType = some RetType.expectation then
      if m.obs.name = "Hamiltonian" then .error QErr.unsupportedHamiltonian
      else checkMeasurements rest
    else
      match m.returnType with
      | some rt => .error (QErr.unsupportedReturnType rt)
      | none => .error QErr.attributeError

/-- One step of the operation expansion (lines 1085-1097): a multi-parameter
operation must be a non-inverted `Rot` (decomposed and reversed), state
preparations and snapshots are dropped, everything else is kept as is. -/
def expandStep (decomp : Operation → List Operation) (op : Operation) :
    Except QErr (List Operation) :=
  if 1 < op.numParams then
    if op.name = "Rot" ∧ op.inverse = false then .ok ((decomp op).reverse)
    else .error (QErr.unsupportedAdjointOperation op.name)
  else if op.name = "QubitStateVector" ∨ op.name = "BasisState" ∨ op.name = "Snapshot" then
    .ok []
  else .ok [op]

/-- The expansion loop over the reversed operation list (already reversed by
the caller), aborting at the first unsupported operation. -/
def expandOpsRev (decomp : Operation → List Operation) :
    List Operation → Except QErr (List Operation)
  | [] => .ok []
  | op :: rest =>
    match expandStep decomp op with
    | .error e => .error e
    | .ok es =>
      match expandOpsRev decomp rest with
      | .error e => .error e
      | .ok tail => .ok (es ++ tail)

/-- The full `expanded_ops` construction (lines 1084-1097): iterate the tape
operations in reverse and expand each. -/
def expandOps (decomp : Operation → List Operation) (ops : List Operation) :
    Except QErr (List Operation) :=
  expandOpsRev decomp ops.reverse

/-- Python wrap-around indexing for `jac[:, t]`: a negative column index counts
from the end of the row. -/
def pyWrapIndex (len : Nat) (t : Int) : Nat :=
  (if t < 0 then t + len else t).toNat

/-- The column assignment `jac[:, t] = col` (line 1133): each row `k` gets
`col[k]` written at (wrapped) column `t`; rows and entries outside the valid
range are left unchanged. -/
def setColumn (jac : List (List ℚ)) (t : Int) (col : List ℚ) : List (List ℚ) :=
  (List.range jac.length).map
    (fun k => (jac.getD k []).set (pyWrapIndex (jac.getD k []).length t) (col.getD k 0))

/-- The mutable loop state of the backward walk: the running ket, the bra
array, the Jacobian being filled, the two decrementing parameter counters, and
the post-iteration versions of the walked operations (the source mutates the
shared operation objects in place; the model returns their final values). -/
structure WalkState (S : Type) where
  ket : S
  bras : List S
  jac : List (List ℚ)
  paramNumber : Int
  trainableParamNumber : Int
  doneOps : List Operation

/-- One iteration of the backward walk (lines 1119-1140): the derivative matrix
is taken before inversion, the operation is inverted in place and applied to
the ket, a trainable parameter contributes the column
`2 * Re(sum(conj(bras) * d_op @ ket))`, the counters decrement, every bra is
advanced with the still-inverted operation, and the operation is re-inverted. -/
def walkStep {S M : Type} (B : Backend S M) (trainables : List Nat)
    (st : WalkState S) (op : Operation) : WalkState S :=
  let inTrainables := (trainables.map (fun k => (k : Int))).contains st.paramNumber
  let dOpMatrix := B.operationDerivative op
  let opInv := op.invToggle
  let ket' := B.applyOperation st.ket opInv
  let next :=
    match op.gradMethod with
    | none => (st.jac, st.trainableParamNumber, st.paramNumber)
    | some _ =>
      if inTrainables then
        let ketTemp := B.applyUnitary ket' dOpMatrix op.wires
        let col := st.bras.map (fun b => 2 * B.dotProductReal b ketTemp)
        (setColumn st.jac st.trainableParamNumber col,
          st.trainableParamNumber - 1, st.paramNumber - 1)
      else
        (st.jac, st.trainableParamNumber, st.paramNumber - 1)
  let bras' := st.bras.map (fun b => B.applyOperation b opInv)
  { ket := ket'
    bras := bras'
    jac := next.1
    paramNumber := next.2.2
    trainableParamNumber := next.2.1
    doneOps := st.doneOps ++ [opInv.invToggle] }

/-- What a successful `adjoint_jacobian` call produces in the model: the
Jacobian matrix, the warnings issued along the way, and the final state of the
walked operation objects (exposing the in-place `op.inv()` mutations). -/
structure AdjointResult where
  jac : List (List ℚ)
  warnings : List QWarn
  finalOps : List Operation
  deriving DecidableEq, Repr

/-- The trainable parameter set after the exclusion loop (lines 1099-1113):
trainable indices whose owning operation is a measurement observable are
dropped. -/
def adjointTrainables (tape : Tape) : List Nat :=
  tape.trainableParams.filter (fun k => !tape.parIsMeasurement k)

/-- The warnings issued by the exclusion loop, one per dropped trainable
parameter (lines 1102-1111). -/
def adjointParamWarnings (tape : Tape) : List QWarn :=
  (tape.trainableParams.filter tape.parIsMeasurement).map
    (fun _ => QWarn.observableParamSkipped)

/-- The state initialization of `adjoint_jacobian` (lines 1070-1077): a
caller-supplied starting state (the source reshapes it to one axis per wire)
takes precedence, then the retained `_pre_rotated_state` if `use_device_state`,
otherwise the state left by a fresh `reset(); execute(tape)`. -/
def adjointKet0 {S M : Type} (B : Backend S M) (startingState : Option S)
    (useDeviceState : Bool) : S :=
  match startingState with
  | some s => s
  | none => if useDeviceState then B.preRotatedState else B.executedState

/-- The initial walk state (lines 1079-1118): one bra per tape observable
(the observable applied to the initial ket), the `np.zeros((n_obs, n_train))`
Jacobian, and the two parameter counters started at
`len(tape.get_parameters(trainable_only=False, operations_only=True)) - 1` and
`len(trainable_params) - 1`. -/
def adjointWalkInit {S M : Type} (B : Backend S M) (tape : Tape) (ket0 : S) : WalkState S :=
  { ket := ket0
    bras := tape.observables.map (fun o => B.applyObservable ket0 o)
    jac := List.replicate tape.observables.length
      (List.replicate (adjointTrainables tape).length (0 : ℚ))
    paramNumber := (Int.ofNat (tape.operations.map (fun op => op.numParams)).sum) - 1
    trainableParamNumber := (Int.ofNat (adjointTrainables tape).length) - 1
    doneOps := [] }

/-- The walk over the expanded operations plus result assembly (lines
1119-1142), including the finite-shot warning of lines 1063-1068. -/
def adjointRun {S M : Type} (B : Backend S M) (dev : DeviceCfg) (tape : Tape)
    (ket0 : S) (expanded : List Operation) : AdjointResult :=
  let fin := expanded.foldl (walkStep B (adjointTrainables tape)) (adjointWalkInit B tape ket0)
  { jac := fin.jac
    warnings := (if dev.shots.isSome then [QWarn.finiteShotsAdjoint] else []) ++
      adjointParamWarnings tape
    finalOps := fin.doneOps }

/-- Embedding of `QubitDevice.adjoint_jacobian` (lines 1007-1142): measurement
preconditions, finite-shot warning, state initialization, per-observable bra
construction, reversed-operation expansion, exclusion of observable-owned
trainable parameters with a warning, and the backward walk filling the
`len(observables) × len(trainable_params)` Jacobian initialised by `np.zeros`. -/
def adjointJacobian {S M : Type} (B : Backend S M) (dev : DeviceCfg) (tape : Tape)
    (startingState : Option S) (useDeviceState : Bool) : Except QErr AdjointResult :=
  match checkMeasurements tape.measurements with
  | .error e => .error e
  | .ok _ =>
    match expandOps B.decompositionOf tape.operations with
    | .error e => .error e
    | .ok expanded =>
      .ok (adjointRun B dev tape (adjointKet0 B startingState useDeviceState) expanded)

/-- A measurement that makes the adjoint precondition loop raise: either its
return type is not Expectation, or it is an Expectation of a Hamiltonian. -/
def violatesAdjoint (m : Measurement) : Bool :=
  decide (m.returnType ≠ some RetType.expectation) || decide (m.obs.name = "Hamiltonian")

/-! ### Concrete instances used by witnesses and counterexamples -/

/-- A one-wire analytic device (wire label 0, no shots). -/
def dev0 : DeviceCfg := { numWires := 1, wiresLabels := [0], shots := none }

/-- A trivial backend over the unit state and unit matrix types. -/
def B0 : Backend Unit Unit :=
  { applyOperation := fun _ _ => ()
    applyObservable := fun _ _ => ()
    applyUnitary := fun _ _ _ => ()
    operationDerivative := fun _ => ()
    decompositionOf := fun _ => []
    dotProductReal := fun _ _ => 0
    preRotatedState := ()
    executedState := () }

/-- A single-parameter rotation gate with an analytic gradient method. -/
def opRX : Operation :=
  { name := "RX", numParams := 1, inverse := false, gradMethod := some "A", wires := [0] }

/-- A tape accepted by the adjoint engine: one RX gate, one PauliZ expectation,
trainable parameter 0 a gate parameter and trainable parameter 1 owned by the
measured observable. -/
def tapeOK : Tape :=
  { measurements := [{ returnType := some RetType.expectation
                       obs := { name := "PauliZ", wires := [0] } }]
    observables := [{ name := "PauliZ", wires := [0] }]
    operations := [opRX]
    trainableParams := [0, 1]
    parIsMeasurement := fun k => k == 1 }

/-- The result of running the adjoint engine on `tapeOK` with backend `B0`. -/
def rOK : AdjointResult :=
  { jac := [[0]], warnings := [QWarn.observableParamSkipped], finalOps := [opRX] }

/-- A tape whose first measurement is an Expectation of a Hamiltonian and whose
second is a Variance: both adjoint preconditions are violated, and the
Hamiltonian check fires first. -/
def tapeHamVar : Tape :=
  { measurements := [{ returnType := some RetType.expectation
                       obs := { name := "Hamiltonian", wires := [0] } },
                     { returnType := some RetType.variance
                       obs := { name := "PauliZ", wires := [0] } }]
    observables := [{ name := "Hamiltonian", wires := [0] },
                    { name := "PauliZ", wires := [0] }]
    operations := [opRX]
    trainableParams := [0]
    parIsMeasurement := fun _ => false }

/-- A tape whose only measurement is a Variance. -/
def tapeVar : Tape :=
  { measurements := [{ returnType := some RetType.variance
                       obs := { name := "PauliZ", wires := [0] } }]
    observables := [{ name := "PauliZ", wires := [0] }]
    operations := [opRX]
    trainableParams := [0]
    parIsMeasurement := fun _ => false }

/-- A statistics context over the unit result type in which every external
computation succeeds. -/
def ctx0 : StatsCtx Unit :=
  { expval := fun _ _ _ => .ok ()
    var := fun _ _ _ => .ok ()
    sample := fun _ _ _ => .ok ()
    probability := fun _ _ _ => .ok ()
    accessState := fun _ => .ok ()
    vnEntropy := fun _ _ => .ok ()
    mutualInfo := fun _ _ _ => .ok () }

/-- A requested measurement whose `return_type` is absent (`None`). -/
def mpNone : MP :=
  { returnType := none, name := "raw", wires := [], rawWires0 := [], rawWires1 := []
    logBase := none }

/-- A requested expectation measurement. -/
def mpExp : MP :=
  { returnType := some RetType.expectation, name := "PauliZ", wires := [0]
    rawWires0 := [], rawWires1 := [], logBase := none }

/-- A requested measurement with an unrecognized (non-None) kind. -/
def mpOther : MP :=
  { returnType := some (RetType.other "counts"), name := "counts", wires := [0]
    rawWires0 := [], rawWires1 := [], logBase := none }

/-- A concrete analytic-probability collaborator for the one-wire device. -/
def ap0 : Option (List Nat) → Except QErr (List ℚ) := fun _ => .ok [1, 0]

/-- A concrete (deterministic) stand-in for `np.random.choice`. -/
def sampler0 : Nat → List Nat → List ℚ → List Nat := fun shots _ _ => List.replicate shots 0

/-! ### Lemmas about the basis-state codec -/

theorem bitAt_eq_testBit (i j : Nat) : bitAt i j = (i.testBit j).toNat := by
  rw [bitAt, Nat.one_shiftLeft, Nat.and_two_pow]
  cases h : i.testBit j <;> simp [Nat.two_pow_pos]

theorem length_statesToBinary (i n : Nat) : (statesToBinary i n).length = n := by
  simp [statesToBinary]

theorem statesToBinary_succ (i n : Nat) :
    statesToBinary i (n + 1) = bitAt i n :: statesToBinary i n := by
  simp [statesToBinary, List.range_succ]

theorem bitsToIndex_cons (b : Nat) (rest : List Nat) :
    bitsToIndex (b :: rest) = b * 2 ^ rest.length + bitsToIndex rest := by
  simp [bitsToIndex, List.range_succ]

theorem mod_two_pow_succ (i n : Nat) :
    i % 2 ^ (n + 1) = (i.testBit n).toNat * 2 ^ n + i % 2 ^ n := by
  have h1 : i % 2 ^ (n + 1) = i % 2 ^ n + 2 ^ n * (i / 2 ^ n % 2) := by
    rw [pow_succ]
    exact Nat.mod_mul
  have h2 : i.testBit n = decide (i / 2 ^ n % 2 = 1) := Nat.testBit_to_div_mod
  rcases Nat.mod_two_eq_zero_or_one (i / 2 ^ n) with h | h <;>
    simp [h1, h2, h, Nat.mul_comm] <;> omega

theorem bitsToIndex_statesToBinary (n i : Nat) :
    bitsToIndex (statesToBinary i n) = i % 2 ^ n := by
  induction n with
  | zero => simp [statesToBinary, bitsToIndex, Nat.mod_one]
  | succ n ih =>
    rw [statesToBinary_succ, bitsToIndex_cons, length_statesToBinary, ih,
      bitAt_eq_testBit, mod_two_pow_succ]

theorem bitAt_eq_zero_of_lt {i n : Nat} (h : i < 2 ^ n) : bitAt i n = 0 := by
  rw [bitAt_eq_testBit, Nat.testBit_lt_two_pow h]
  rfl

theorem bitAt_two_pow_add {i n : Nat} (h : i < 2 ^ n) : bitAt (2 ^ n + i) n = 1 := by
  rw [bitAt_eq_testBit, Nat.testBit_two_pow_add_eq, Nat.testBit_lt_two_pow h]
  rfl

theorem statesToBinary_two_pow_add (i n : Nat) :
    statesToBinary (2 ^ n + i) n = statesToBinary i n := by
  unfold statesToBinary
  congr 1
  apply List.map_congr_left
  intro j hj
  rw [bitAt_eq_testBit, bitAt_eq_testBit,
    Nat.testBit_two_pow_add_gt (List.mem_range.mp hj)]

theorem fast_eq_product (n : Nat) : generateBasisStatesFast n = itertoolsProduct n := by
  induction n with
  | zero => decide
  | succ n ih =>
    have hsplit : 2 ^ (n + 1) = 2 ^ n + 2 ^ n := by
      rw [pow_succ]
      omega
    have hfirst :
        (List.range (2 ^ n)).map (fun i => statesToBinary i (n + 1)) =
          (generateBasisStatesFast n).map (fun t => 0 :: t) := by
      rw [generateBasisStatesFast, List.map_map]
      apply List.map_congr_left
      intro i hi
      rw [statesToBinary_succ, bitAt_eq_zero_of_lt (List.mem_range.mp hi)]
      rfl
    have hsecond :
        ((List.range (2 ^ n)).map (fun i => 2 ^ n + i)).map
            (fun i => statesToBinary i (n + 1)) =
          (generateBasisStatesFast n).map (fun t => 1 :: t) := by
      rw [List.map_map, generateBasisStatesFast, List.map_map]
      apply List.map_congr_left
      intro i hi
      have hlt := List.mem_range.mp hi
      show statesToBinary (2 ^ n + i) (n + 1) = 1 :: statesToBinary i n
      rw [statesToBinary_succ, bitAt_two_pow_add hlt, statesToBinary_two_pow_add]
    calc generateBasisStatesFast (n + 1)
        = (List.range (2 ^ n + 2 ^ n)).map (fun i => statesToBinary i (n + 1)) := by
          rw [generateBasisStatesFast, hsplit]
      _ = (List.range (2 ^ n)).map (fun i => statesToBinary i (n + 1)) ++
            ((List.range (2 ^ n)).map (fun i => 2 ^ n + i)).map
              (fun i => statesToBinary i (n + 1)) := by
          rw [List.range_add, List.map_append]
      _ = (generateBasisStatesFast n).map (fun t => 0 :: t) ++
            (generateBasisStatesFast n).map (fun t => 1 :: t) := by
          rw [hfirst, hsecond]
      _ = itertoolsProduct (n + 1) := by rw [ih]; rfl

/-! ### Claim C4: basis codec round trip -/

/-- C4: for every number of wires n >= 1 and every integer i with 0 <= i < 2^n,
decoding i into an n-bit most-significant-wire-first bit vector
(`states_to_binary`) and re-encoding that bit vector with big-endian positional
weights 2^(n-1-j) recovers i. -/
theorem basis_codec_round_trip (n i : Nat) (hn : 1 ≤ n) (hi : i < 2 ^ n) :
    bitsToIndex (statesToBinary i n) = i := by
  rw [bitsToIndex_statesToBinary]
  exact Nat.mod_eq_of_lt hi

/-- Witness for C4 at n = 3, i = 5. -/
theorem basis_codec_round_trip_witness :
    1 ≤ 3 ∧ 5 < 2 ^ 3 ∧ bitsToIndex (statesToBinary 5 3) = 5 :=
  ⟨by decide, by decide, basis_codec_round_trip 3 5 (by decide) (by decide)⟩

/-! ### Claim C5: the two basis-state generation paths agree -/

/-- C5: for every number of wires with 2 < num_wires < 32, the fast vectorized
path of `generate_basis_states` (`arange` then `states_to_binary`) is the path
actually taken, and it produces exactly the row list the `itertools.product`
generator path would produce for the same number of wires. -/
theorem generate_basis_states_paths_agree (n : Nat) (h2 : 2 < n) (h32 : n < 32) :
    generateBasisStates n = .ok (generateBasisStatesFast n) ∧
    generateBasisStatesFast n = itertoolsProduct n := by
  refine ⟨?_, fast_eq_product n⟩
  rw [generateBasisStates, if_pos ⟨h2, h32⟩]

/-- Witness for C5 at num_wires = 3. -/
theorem generate_basis_states_paths_agree_witness :
    2 < 3 ∧ 3 < 32 ∧
      (generateBasisStates 3 = .ok (generateBasisStatesFast 3) ∧
        generateBasisStatesFast 3 = itertoolsProduct 3) :=
  ⟨by decide, by decide, generate_basis_states_paths_agree 3 (by decide) (by decide)⟩

/-! ### Claim C6: marginalization identity law -/

/-- C6 (amended): `marginal_prob` returns `prob` unchanged when `wires` is
unset (`None`); an empty (but set) wire collection is NOT treated as unset —
the `if wires is None` guard does not fire, the method marginalizes over all
device wires and then fails inside `generate_basis_states(0)`. -/
theorem marginal_prob_identity (dev : DeviceCfg) (prob : List ℚ) :
    marginalProb dev prob none = .ok prob ∧
    marginalProb dev prob (some []) = .error QErr.valueErrorReshape := by
  exact ⟨rfl, rfl⟩

/-- C6 counterexample: on the one-wire device, an empty wire collection does
not return the probability vector unchanged — the call errors instead of
satisfying the claimed identity law. -/
theorem marginal_prob_empty_wires_counterexample :
    marginalProb dev0 [1/3, 2/3] (some []) = .error QErr.valueErrorReshape ∧
    marginalProb dev0 [1/3, 2/3] (some []) ≠ .ok [1/3, 2/3] := by
  refine ⟨rfl, ?_⟩
  intro h
  cases h

/-! ### Claim C9: analytic path of probability ignores shot arguments -/

/-- C9: on a device with no configured shots, `probability` returns
`analytic_probability(wires)` for all values of `shot_range` and `bin_size`:
the two arguments are silently ignored on the analytic path. -/
theorem probability_analytic_ignores_shot_args (dev : DeviceCfg)
    (ap : Option (List Nat) → Except QErr (List ℚ)) (samples : Option (List (List Nat)))
    (wires : Option (List Nat)) (h : dev.shots = none)
    (sr sr' : Option (Nat × Nat)) (bs bs' : Option Nat) :
    probability dev ap samples wires sr bs = probability dev ap samples wires sr' bs' ∧
    ∀ p, ap wires = .ok p →
      probability dev ap samples wires sr bs = .ok (ProbResult.vec p) := by
  unfold probability
  rw [h]
  exact ⟨rfl, fun p hp => by rw [hp]⟩

/-- Witness for C9 on the analytic one-wire device. -/
theorem probability_analytic_ignores_shot_args_witness :
    probability dev0 ap0 none none (some (0, 5)) (some 2) =
        probability dev0 ap0 none none none none ∧
    probability dev0 ap0 none none (some (0, 5)) (some 2) = .ok (ProbResult.vec [1, 0]) :=
  ⟨(probability_analytic_ignores_shot_args dev0 ap0 none none (by decide)
      (some (0, 5)) none (some 2) none).1,
   (probability_analytic_ignores_shot_args dev0 ap0 none none (by decide)
      (some (0, 5)) none (some 2) none).2 [1, 0] (by decide)⟩

/-! ### Claim C8: estimate_probability in analytic mode -/

/-- C8 counterexample: on the analytic one-wire device (no shots, hence no
generated sample buffer), `estimate_probability` fails with the None-subscript
TypeError, not with the shots-required error the claim names. -/
theorem estimate_probability_shots_counterexample :
    dev0.shots = none ∧
    estimateProbability dev0 none (some [0]) none none =
        .error QErr.typeErrorNoneSubscript ∧
    QErr.typeErrorNoneSubscript ≠ QErr.shotsRequired := by
  decide

/-- C8 (amended): `estimate_probability` performs no shot-count check of its
own; with no sample buffer generated (analytic mode) it fails with the
None-subscript TypeError.  The shots-required error belongs to
`sample_basis_states`, which raises it during sample generation whenever the
device has no configured shots. -/
theorem estimate_probability_no_shots_check (dev : DeviceCfg)
    (wires : Option (List Nat)) (sr : Option (Nat × Nat)) (bs : Option Nat)
    (sampler : Nat → List Nat → List ℚ → List Nat) (n : Nat) (p : List ℚ)
    (hshots : dev.shots = none) :
    estimateProbability dev none wires sr bs = .error QErr.typeErrorNoneSubscript ∧
    sampleBasisStates dev sampler n p = .error QErr.shotsRequired := by
  constructor
  · rfl
  · unfold sampleBasisStates
    rw [hshots]

/-- Witness for C8 on the analytic one-wire device. -/
theorem estimate_probability_no_shots_check_witness :
    estimateProbability dev0 none (some [0]) none none =
        .error QErr.typeErrorNoneSubscript ∧
    sampleBasisStates dev0 sampler0 2 [1, 0] = .error QErr.shotsRequired :=
  estimate_probability_no_shots_check dev0 (some [0]) none none sampler0 2 [1, 0] (by decide)

/-! ### Claim C10: the unbinned probability estimate is a distribution -/

theorem estProbVec_eq (dev : DeviceCfg) (smp : List (List Nat)) (wires : Option (List Nat))
    (sr : Option (Nat × Nat)) :
    estProbVec dev smp wires sr =
      (List.range (2 ^ (mapWires dev (effectiveWires dev wires)).length)).map
        (fun j =>
          if 0 < (sampleIndices dev smp wires sr).count j then
            ((sampleIndices dev smp wires sr).count j : ℚ) /
              (((selectedSamples dev smp wires sr).length : ℕ) : ℚ)
          else 0) := rfl

theorem list_sum_map_add {α : Type} (l : List α) (f g : α → Nat) :
    (l.map (fun x => f x + g x)).sum = (l.map f).sum + (l.map g).sum := by
  induction l with
  | nil => rfl
  | cons a t ih =>
    simp only [List.map_cons, List.sum_cons, ih]
    omega

theorem sum_range_indicator (N a : Nat) (h : a < N) :
    ((List.range N).map (fun j => if a = j then 1 else 0)).sum = 1 := by
  induction N with
  | zero => omega
  | succ N ih =>
    rw [List.range_succ, List.map_append, List.sum_append]
    rcases Nat.lt_or_ge a N with hlt | hge
    · have hne : ¬(a = N) := by omega
      simp [ih hlt, hne]
    · have ha : a = N := by omega
      subst ha
      have hz : ((List.range a).map (fun j => if a = j then 1 else 0)).sum = 0 := by
        have hmapeq : (List.range a).map (fun j => if a = j then 1 else 0) =
            (List.range a).map (fun _ => 0) := by
          apply List.map_congr_left
          intro x hx
          have : x < a := List.mem_range.mp hx
          have : ¬(a = x) := by omega
          simp [this]
        rw [hmapeq]
        simp
      simp [hz]

theorem sum_range_count (N : Nat) (l : List Nat) (h : ∀ x ∈ l, x < N) :
    ((List.range N).map (fun j => l.count j)).sum = l.length := by
  induction l with
  | nil => simp
  | cons a t ih =>
    have ha : a < N := h a (by simp)
    have ht : ∀ x ∈ t, x < N := fun x hx => h x (by simp [hx])
    have hmapeq : (List.range N).map (fun j => (a :: t).count j) =
        (List.range N).map (fun j => t.count j + (if a = j then 1 else 0)) := by
      apply List.map_congr_left
      intro j _
      rw [List.count_cons]
      by_cases hja : a = j
      · simp [hja]
      · simp [hja, Ne.symm hja]
    rw [hmapeq, list_sum_map_add, ih ht, sum_range_indicator N a ha]
    rfl

theorem list_sum_map_div {α : Type} (l : List α) (f : α → ℚ) (d : ℚ) :
    (l.map (fun x => f x / d)).sum = (l.map f).sum / d := by
  induction l with
  | nil => simp
  | cons a t ih => simp [ih, add_div]

theorem getD_mem_of_lt {α : Type} (l : List α) (d : α) (k : Nat) (h : k < l.length) :
    l.getD k d ∈ l := by
  rw [List.getD_eq_getElem?_getD, List.getElem?_eq_getElem h]
  exact List.getElem_mem h

theorem getD_map_range {β : Type} (N j : Nat) (f : Nat → β) (d : β) (h : j < N) :
    ((List.range N).map f).getD j d = f j := by
  rw [List.getD_eq_getElem?_getD, List.getElem?_map, List.getElem?_range h]
  rfl

theorem bitsToIndex_lt {bits : List Nat} (h : ∀ b ∈ bits, b ≤ 1) :
    bitsToIndex bits < 2 ^ bits.length := by
  induction bits with
  | nil => simp [bitsToIndex]
  | cons b rest ih =>
    rw [bitsToIndex_cons]
    have hb : b ≤ 1 := h b (by simp)
    have hr := ih (fun x hx => h x (by simp [hx]))
    have hbp : b * 2 ^ rest.length ≤ 2 ^ rest.length :=
      Nat.le_trans (Nat.mul_le_mul_right _ hb) (by omega)
    have hlen : (b :: rest).length = rest.length + 1 := rfl
    rw [hlen, pow_succ]
    omega

theorem selectedSamples_bits (dev : DeviceCfg) (smp : List (List Nat))
    (wires : Option (List Nat)) (sr : Option (Nat × Nat))
    (h : ∀ r ∈ smp, ∀ x ∈ r, x ≤ 1) :
    ∀ r ∈ selectedSamples dev smp wires sr, ∀ x ∈ r, x ≤ 1 := by
  intro r hr x hx
  rw [selectedSamples] at hr
  obtain ⟨r0, hr0, rfl⟩ := List.mem_map.mp hr
  obtain ⟨c, _, rfl⟩ := List.mem_map.mp hx
  have hr0mem : r0 ∈ smp := by
    cases sr with
    | none => exact hr0
    | some p =>
      obtain ⟨a, b⟩ := p
      simp only [sliceRows] at hr0
      exact List.drop_subset _ _ (List.take_subset _ _ hr0)
  rcases Nat.lt_or_ge c r0.length with hc | hc
  · exact h r0 hr0mem _ (getD_mem_of_lt r0 0 c hc)
  · rw [List.getD_eq_getElem?_getD, List.getElem?_eq_none hc]
    exact Nat.zero_le 1

theorem selectedSamples_row_length (dev : DeviceCfg) (smp : List (List Nat))
    (wires : Option (List Nat)) (sr : Option (Nat × Nat)) :
    ∀ r ∈ selectedSamples dev smp wires sr,
      r.length = (mapWires dev (effectiveWires dev wires)).length := by
  intro r hr
  rw [selectedSamples] at hr
  obtain ⟨r0, _, rfl⟩ := List.mem_map.mp hr
  simp

theorem sampleIndices_lt (dev : DeviceCfg) (smp : List (List Nat))
    (wires : Option (List Nat)) (sr : Option (Nat × Nat))
    (h : ∀ r ∈ smp, ∀ x ∈ r, x ≤ 1) :
    ∀ i ∈ sampleIndices dev smp wires sr,
      i < 2 ^ (mapWires dev (effectiveWires dev wires)).length := by
  intro i hi
  rw [sampleIndices] at hi
  obtain ⟨r, hr, rfl⟩ := List.mem_map.mp hi
  have hbits := selectedSamples_bits dev smp wires sr h r hr
  have hlen := selectedSamples_row_length dev smp wires sr r hr
  have := bitsToIndex_lt hbits
  rwa [hlen] at this

/-- C10: for every call to `estimate_probability` without `bin_size` that
selects a non-empty 0/1 sample block over k mapped wires, the returned vector
has length exactly 2^k, every entry is non-negative, unseen basis states are
exactly 0, and the entries sum to 1. -/
theorem estimate_probability_no_bin_distribution (dev : DeviceCfg) (smp : List (List Nat))
    (wires : Option (List Nat)) (sr : Option (Nat × Nat))
    (hbits : ∀ r ∈ smp, ∀ x ∈ r, x ≤ 1)
    (hne : selectedSamples dev smp wires sr ≠ []) :
    estimateProbability dev (some smp) wires sr none =
        .ok (ProbResult.vec (estProbVec dev smp wires sr)) ∧
    (estProbVec dev smp wires sr).length =
        2 ^ (mapWires dev (effectiveWires dev wires)).length ∧
    (∀ q ∈ estProbVec dev smp wires sr, 0 ≤ q) ∧
    (∀ j, (sampleIndices dev smp wires sr).count j = 0 →
        (estProbVec dev smp wires sr).getD j 0 = 0) ∧
    (estProbVec dev smp wires sr).sum = 1 := by
  refine ⟨rfl, by rw [estProbVec_eq]; simp, ?_, ?_, ?_⟩
  · intro q hq
    rw [estProbVec_eq] at hq
    obtain ⟨j, _, rfl⟩ := List.mem_map.mp hq
    split
    · exact div_nonneg (Nat.cast_nonneg _) (Nat.cast_nonneg _)
    · exact le_refl 0
  · intro j hj
    rcases Nat.lt_or_ge j (2 ^ (mapWires dev (effectiveWires dev wires)).length) with hlt | hge
    · rw [estProbVec_eq, getD_map_range _ _ _ _ hlt, hj]
      simp
    · have hjlen : (estProbVec dev smp wires sr).length ≤ j := by
        rw [estProbVec_eq]
        simpa using hge
      rw [List.getD_eq_getElem?_getD, List.getElem?_eq_none hjlen]
      rfl
  · have hL : 0 < (selectedSamples dev smp wires sr).length := List.length_pos.mpr hne
    have hidxlen : (sampleIndices dev smp wires sr).length =
        (selectedSamples dev smp wires sr).length := by
      simp [sampleIndices]
    have hlt := sampleIndices_lt dev smp wires sr hbits
    have step1 : estProbVec dev smp wires sr =
        (List.range (2 ^ (mapWires dev (effectiveWires dev wires)).length)).map
          (fun j => ((sampleIndices dev smp wires sr).count j : ℚ) /
            (((selectedSamples dev smp wires sr).length : ℕ) : ℚ)) := by
      rw [estProbVec_eq]
      apply List.map_congr_left
      intro j _
      split
      · rfl
      · rename_i hc
        have hz : (sampleIndices dev smp wires sr).count j = 0 := by omega
        rw [hz]
        simp
    rw [step1, list_sum_map_div]
    have step3 : ((List.range (2 ^ (mapWires dev (effectiveWires dev wires)).length)).map
        (fun j => (((sampleIndices dev smp wires sr).count j : ℕ) : ℚ))).sum =
        ((((List.range (2 ^ (mapWires dev (effectiveWires dev wires)).length)).map
          (fun j => (sampleIndices dev smp wires sr).count j)).sum : ℕ) : ℚ) := by
      rw [Nat.cast_list_sum, List.map_map]
      rfl
    rw [step3, sum_range_count _ _ hlt, hidxlen]
    have hne0 : (((selectedSamples dev smp wires sr).length : ℕ) : ℚ) ≠ 0 := by
      exact_mod_cast Nat.pos_iff_ne_zero.mp hL
    exact div_self hne0

/-- Witness for C10: four one-wire samples, three of them in state 1. -/
theorem estimate_probability_no_bin_distribution_witness :
    estimateProbability dev0 (some [[0], [1], [1], [1]]) none none none =
        .ok (ProbResult.vec (estProbVec dev0 [[0], [1], [1], [1]] none none)) ∧
    (estProbVec dev0 [[0], [1], [1], [1]] none none).sum = 1 :=
  ⟨(estimate_probability_no_bin_distribution dev0 [[0], [1], [1], [1]] none none
      (by decide) (by decide)).1,
   (estimate_probability_no_bin_distribution dev0 [[0], [1], [1], [1]] none none
      (by decide) (by decide)).2.2.2.2⟩

/-! ### Claim C7: one statistics entry per requested observable -/

theorem statisticsAux_forall2 {R : Type} (ctx : StatsCtx R) (dev : DeviceCfg)
    (numObs : Nat) (sr : Option (Nat × Nat)) (bs : Option Nat) :
    ∀ (l : List MP) (rs : List R),
      statisticsAux ctx dev numObs sr bs l = .ok rs →
      List.Forall₂
        (fun o r => ∃ rt, o.returnType = some rt ∧
          statsDispatch ctx dev numObs sr bs o rt = .ok r)
        (l.filter (fun o => o.returnType.isSome)) rs := by
  intro l
  induction l with
  | nil =>
    intro rs h
    simp only [statisticsAux] at h
    injection h with h
    subst h
    exact List.Forall₂.nil
  | cons o rest ih =>
    intro rs h
    simp only [statisticsAux] at h
    cases hrt : o.returnType with
    | none =>
      rw [hrt] at h
      dsimp only at h
      rw [List.filter_cons]
      simp only [hrt, Option.isSome_none]
      exact ih rs h
    | some rt =>
      rw [hrt] at h
      dsimp only at h
      cases hd : statsDispatch ctx dev numObs sr bs o rt with
      | error e =>
        rw [hd] at h
        cases h
      | ok res =>
        rw [hd] at h
        cases ht : statisticsAux ctx dev numObs sr bs rest with
        | error e =>
          rw [ht] at h
          cases h
        | ok tail =>
          rw [ht] at h
          injection h with h
          subst h
          rw [List.filter_cons]
          simp only [hrt, Option.isSome_some, if_pos]
          exact List.Forall₂.cons ⟨rt, hrt, hd⟩ (ih tail ht)

theorem statisticsAux_error_of_other {R : Type} (ctx : StatsCtx R) (dev : DeviceCfg)
    (numObs : Nat) (sr : Option (Nat × Nat)) (bs : Option Nat) :
    ∀ l : List MP, (∃ o ∈ l, ∃ tag, o.returnType = some (RetType.other tag)) →
      ∃ e, statisticsAux ctx dev numObs sr bs l = .error e := by
  intro l
  induction l with
  | nil =>
    intro h
    simp at h
  | cons o rest ih =>
    intro h
    cases hrt : o.returnType with
    | none =>
      obtain ⟨o', ho', tag, htag⟩ := h
      rcases List.mem_cons.mp ho' with rfl | hrest
      · rw [hrt] at htag
        cases htag
      · obtain ⟨e, he⟩ := ih ⟨o', hrest, tag, htag⟩
        refine ⟨e, ?_⟩
        simp only [statisticsAux, hrt]
        exact he
    | some rt =>
      cases hd : statsDispatch ctx dev numObs sr bs o rt with
      | error e =>
        refine ⟨e, ?_⟩
        simp only [statisticsAux, hrt]
        rw [hd]
      | ok res =>
        obtain ⟨o', ho', tag, htag⟩ := h
        rcases List.mem_cons.mp ho' with rfl | hrest
        · rw [hrt] at htag
          injection htag with htag
          subst htag
          simp [statsDispatch] at hd
        · obtain ⟨e, he⟩ := ih ⟨o', hrest, tag, htag⟩
          refine ⟨e, ?_⟩
          simp only [statisticsAux, hrt]
          rw [hd, he]

/-- C7 (amended): `statistics` produces exactly one result entry, in input
order, per requested observable whose measurement kind is set: on success the
result list corresponds entry-for-entry (via `List.Forall₂`, which fixes both
the one-to-one pairing and the order) to the sub-list of observables with a
set kind, each entry being the value of that observable's own dispatch;
observables with an absent (`None`) kind are silently skipped, and a request
containing an observable with an unrecognized non-None kind never succeeds —
the call raises an error. -/
theorem statistics_dispatch_contract {R : Type} (ctx : StatsCtx R) (dev : DeviceCfg)
    (obs : List MP) (sr : Option (Nat × Nat)) (bs : Option Nat) :
    (∀ rs : List R, statistics ctx dev obs sr bs = .ok rs →
        List.Forall₂
          (fun o r => ∃ rt, o.returnType = some rt ∧
            statsDispatch ctx dev obs.length sr bs o rt = .ok r)
          (obs.filter (fun o => o.returnType.isSome)) rs) ∧
    ((∃ o ∈ obs, ∃ tag, o.returnType = some (RetType.other tag)) →
        ∃ e, statistics ctx dev obs sr bs = .error e) := by
  constructor
  · intro rs h
    exact statisticsAux_forall2 ctx dev obs.length sr bs obs rs h
  · intro h
    exact statisticsAux_error_of_other ctx dev obs.length sr bs obs h

/-- C7 counterexample: a single requested observable whose measurement kind is
absent produces an empty result list — zero entries for one observable, so the
claimed one-entry-per-observable invariant fails. -/
theorem statistics_skips_none_counterexample :
    statistics ctx0 dev0 [mpNone] none none = .ok [] ∧
    ([] : List Unit).length ≠ [mpNone].length := by
  exact ⟨rfl, by decide⟩

/-- Witness for C7: one entry for the set-kind observable of
`[mpExp, mpNone]` (via the proved correspondence), and no successful result
when an unrecognized kind is requested. -/
theorem statistics_dispatch_contract_witness :
    ([mpExp, mpNone].filter (fun o => o.returnType.isSome)).length =
      ([()] : List Unit).length ∧
    statistics ctx0 dev0 [mpOther, mpExp] none none ≠ .ok ([()] : List Unit) := by
  constructor
  · exact ((statistics_dispatch_contract ctx0 dev0 [mpExp, mpNone] none none).1
      [()] (by decide)).length_eq
  · obtain ⟨e, he⟩ := (statistics_dispatch_contract ctx0 dev0 [mpOther, mpExp] none none).2
      ⟨mpOther, by decide, "counts", by decide⟩
    intro hcontra
    rw [he] at hcontra
    cases hcontra

/-! ### Claim C1: adjoint rejects non-Expectation measurements -/

theorem checkMeasurements_error_of_violation (ms : List Measurement)
    (h : ∃ m ∈ ms, violatesAdjoint m = true) :
    ∃ e, checkMeasurements ms = .error e := by
  induction ms with
  | nil => simp at h
  | cons m rest ih =>
    rw [checkMeasurements]
    by_cases h1 : m.returnType = some RetType.expectation
    · rw [if_pos h1]
      by_cases h2 : m.obs.name = "Hamiltonian"
      · rw [if_pos h2]
        exact ⟨_, rfl⟩
      · rw [if_neg h2]
        apply ih
        obtain ⟨m', hm', hv⟩ := h
        rcases List.mem_cons.mp hm' with rfl | hrest
        · exfalso
          rw [violatesAdjoint] at hv
          simp [h1, h2] at hv
        · exact ⟨m', hrest, hv⟩
    · rw [if_neg h1]
      cases hrt : m.returnType with
      | some rt => exact ⟨_, rfl⟩
      | none => exact ⟨_, rfl⟩

theorem checkMeasurements_first_nonexpectation (ms : List Measurement) :
    ∀ m, ms.find? violatesAdjoint = some m →
      ∀ rt, m.returnType = some rt → rt ≠ RetType.expectation →
        checkMeasurements ms = .error (QErr.unsupportedReturnType rt) := by
  induction ms with
  | nil =>
    intro m hfind
    simp at hfind
  | cons m0 rest ih =>
    intro m hfind rt hrt hne
    by_cases hv : violatesAdjoint m0 = true
    · rw [List.find?_cons_of_pos rest hv] at hfind
      have hm : m0 = m := by injection hfind
      have h1 : ¬(m0.returnType = some RetType.expectation) := by
        rw [hm, hrt]
        intro hcontra
        injection hcontra with hcontra
        exact hne hcontra
      rw [checkMeasurements, if_neg h1, hm, hrt]
    · rw [List.find?_cons_of_neg rest (by simp [hv])] at hfind
      have h1 : m0.returnType = some RetType.expectation := by
        rw [violatesAdjoint] at hv
        simp at hv
        exact hv.1
      have h2 : ¬(m0.obs.name = "Hamiltonian") := by
        rw [violatesAdjoint] at hv
        simp at hv
        exact hv.2
      rw [checkMeasurements, if_pos h1, if_neg h2]
      exact ih m hfind rt hrt hne

theorem adjointJacobian_error_of_check {S M : Type} (B : Backend S M) (dev : DeviceCfg)
    (tape : Tape) (ss : Option S) (uds : Bool) (e : QErr)
    (h : checkMeasurements tape.measurements = .error e) :
    adjointJacobian B dev tape ss uds = .error e := by
  rw [adjointJacobian, h]

/-- C1 (amended): any tape containing a non-Expectation measurement makes
`adjoint_jacobian` raise before any Jacobian is built; the raised error is the
unsupported-gradient-measurement error precisely when the first measurement
violating the adjoint preconditions is itself a (non-None) non-Expectation
measurement — an earlier Expectation-of-Hamiltonian measurement raises the
unsupported-observable error instead. -/
theorem adjoint_rejects_nonexpectation {S M : Type} (B : Backend S M) (dev : DeviceCfg)
    (tape : Tape) (ss : Option S) (uds : Bool)
    (h : ∃ m ∈ tape.measurements, m.returnType ≠ some RetType.expectation) :
    (∃ e, adjointJacobian B dev tape ss uds = .error e) ∧
    (∀ m, tape.measurements.find? violatesAdjoint = some m →
      ∀ rt, m.returnType = some rt → rt ≠ RetType.expectation →
        adjointJacobian B dev tape ss uds = .error (QErr.unsupportedReturnType rt)) := by
  constructor
  · obtain ⟨m, hm, hne⟩ := h
    obtain ⟨e, he⟩ := checkMeasurements_error_of_violation tape.measurements
      ⟨m, hm, by rw [violatesAdjoint]; simp [hne]⟩
    exact ⟨e, adjointJacobian_error_of_check B dev tape ss uds e he⟩
  · intro m hfind rt hrt hne
    exact adjointJacobian_error_of_check B dev tape ss uds _
      (checkMeasurements_first_nonexpectation tape.measurements m hfind rt hrt hne)

/-- C1 counterexample: `tapeHamVar` contains a Variance measurement (so the
claim's premise holds), yet the call fails with the Hamiltonian-observable
error raised by the earlier Expectation-of-Hamiltonian measurement, not with
the unsupported-gradient-measurement error the claim promises. -/
theorem adjoint_nonexpectation_counterexample :
    ({ returnType := some RetType.variance
       obs := { name := "PauliZ", wires := [0] } } : Measurement)
        ∈ tapeHamVar.measurements ∧
    adjointJacobian B0 dev0 tapeHamVar none false = .error QErr.unsupportedHamiltonian ∧
    adjointJacobian B0 dev0 tapeHamVar none false ≠
      .error (QErr.unsupportedReturnType RetType.variance) := by
  refine ⟨by decide, by decide, ?_⟩
  intro hcontra
  have heq : adjointJacobian B0 dev0 tapeHamVar none false =
      .error QErr.unsupportedHamiltonian := by decide
  rw [heq] at hcontra
  cases hcontra

/-- Witness for C1 (amended) on a tape whose only measurement is a Variance. -/
theorem adjoint_rejects_nonexpectation_witness :
    adjointJacobian B0 dev0 tapeVar none false =
      .error (QErr.unsupportedReturnType RetType.variance) :=
  (adjoint_rejects_nonexpectation B0 dev0 tapeVar none false (by decide)).2
    { returnType := some RetType.variance, obs := { name := "PauliZ", wires := [0] } }
    (by decide) RetType.variance (by decide) (by decide)

/-! ### Claim C2: Jacobian shape and excluded measurement parameters -/

theorem setColumn_length (jac : List (List ℚ)) (t : Int) (col : List ℚ) :
    (setColumn jac t col).length = jac.length := by
  simp [setColumn]

theorem setColumn_row_length (jac : List (List ℚ)) (t : Int) (col : List ℚ) (C : Nat)
    (h : ∀ r ∈ jac, r.length = C) :
    ∀ r ∈ setColumn jac t col, r.length = C := by
  intro r hr
  rw [setColumn] at hr
  obtain ⟨k, hk, rfl⟩ := List.mem_map.mp hr
  rw [List.length_set]
  exact h _ (getD_mem_of_lt jac [] k (List.mem_range.mp hk))

theorem walkStep_jac_shape {S M : Type} (B : Backend S M) (tr : List Nat)
    (st : WalkState S) (op : Operation) (R C : Nat)
    (h1 : st.jac.length = R) (h2 : ∀ r ∈ st.jac, r.length = C) :
    (walkStep B tr st op).jac.length = R ∧
      ∀ r ∈ (walkStep B tr st op).jac, r.length = C := by
  rw [walkStep]
  cases hg : op.gradMethod with
  | none => exact ⟨h1, h2⟩
  | some g =>
    dsimp only
    by_cases ht : (tr.map (fun k => (k : Int))).contains st.paramNumber
    · rw [if_pos ht]
      dsimp only
      exact ⟨by rw [setColumn_length, h1], setColumn_row_length st.jac _ _ C h2⟩
    · rw [if_neg ht]
      exact ⟨h1, h2⟩

theorem walk_foldl_jac_shape {S M : Type} (B : Backend S M) (tr : List Nat)
    (ops : List Operation) (R C : Nat) :
    ∀ st : WalkState S, st.jac.length = R → (∀ r ∈ st.jac, r.length = C) →
      ((ops.foldl (walkStep B tr) st).jac.length = R ∧
        ∀ r ∈ (ops.foldl (walkStep B tr) st).jac, r.length = C) := by
  induction ops with
  | nil => intro st h1 h2; exact ⟨h1, h2⟩
  | cons op rest ih =>
    intro st h1 h2
    rw [List.foldl_cons]
    obtain ⟨h1', h2'⟩ := walkStep_jac_shape B tr st op R C h1 h2
    exact ih _ h1' h2'

theorem adjointJacobian_ok_elim {S M : Type} (B : Backend S M) (dev : DeviceCfg)
    (tape : Tape) (ss : Option S) (uds : Bool) (r : AdjointResult)
    (h : adjointJacobian B dev tape ss uds = .ok r) :
    ∃ expanded, expandOps B.decompositionOf tape.operations = .ok expanded ∧
      r = adjointRun B dev tape (adjointKet0 B ss uds) expanded := by
  rw [adjointJacobian] at h
  cases hcm : checkMeasurements tape.measurements with
  | error e =>
    rw [hcm] at h
    cases h
  | ok u =>
    rw [hcm] at h
    dsimp only at h
    cases hex : expandOps B.decompositionOf tape.operations with
    | error e =>
      rw [hex] at h
      cases h
    | ok expanded =>
      rw [hex] at h
      dsimp only at h
      injection h with h
      exact ⟨expanded, rfl, h.symm⟩

/-- C2: on every successful `adjoint_jacobian` call, the returned Jacobian has
exactly one row per tape observable, every row has exactly one column per
trainable parameter that survives the exclusion of measurement-owned
parameters, and those excluded parameters produce a warning (present exactly
when such a parameter exists) rather than an error. -/
theorem adjoint_jacobian_shape {S M : Type} (B : Backend S M) (dev : DeviceCfg)
    (tape : Tape) (ss : Option S) (uds : Bool) (r : AdjointResult)
    (h : adjointJacobian B dev tape ss uds = .ok r) :
    r.jac.length = tape.observables.length ∧
    (∀ row ∈ r.jac,
        row.length =
          (tape.trainableParams.filter (fun k => !tape.parIsMeasurement k)).length) ∧
    (QWarn.observableParamSkipped ∈ r.warnings ↔
        ∃ k ∈ tape.trainableParams, tape.parIsMeasurement k = true) := by
  obtain ⟨expanded, _, rfl⟩ := adjointJacobian_ok_elim B dev tape ss uds r h
  have hinit1 : (adjointWalkInit B tape (adjointKet0 B ss uds)).jac.length =
      tape.observables.length := by
    rw [adjointWalkInit]
    exact List.length_replicate _ _
  have hinit2 : ∀ row ∈ (adjointWalkInit B tape (adjointKet0 B ss uds)).jac,
      row.length = (adjointTrainables tape).length := by
    intro row hrow
    rw [adjointWalkInit] at hrow
    obtain ⟨-, rfl⟩ := List.mem_replicate.mp hrow
    exact List.length_replicate _ _
  obtain ⟨hlen, hrows⟩ := walk_foldl_jac_shape B (adjointTrainables tape) expanded
    tape.observables.length (adjointTrainables tape).length
    (adjointWalkInit B tape (adjointKet0 B ss uds)) hinit1 hinit2
  refine ⟨hlen, fun row hrow => hrows row hrow, ?_⟩
  rw [adjointRun]
  dsimp only
  constructor
  · intro hmem
    rcases List.mem_append.mp hmem with hshots | hparams
    · exfalso
      cases hs : dev.shots.isSome <;> rw [hs] at hshots <;> simp at hshots
    · rw [adjointParamWarnings] at hparams
      obtain ⟨k, hk, -⟩ := List.mem_map.mp hparams
      obtain ⟨hk1, hk2⟩ := List.mem_filter.mp hk
      exact ⟨k, hk1, hk2⟩
  · intro ⟨k, hk1, hk2⟩
    apply List.mem_append.mpr
    right
    rw [adjointParamWarnings]
    exact List.mem_map.mpr ⟨k, List.mem_filter.mpr ⟨hk1, hk2⟩, rfl⟩

/-- Witness for C2 on `tapeOK` (one observable, one surviving trainable
parameter, one excluded measurement-owned parameter). -/
theorem adjoint_jacobian_shape_witness :
    rOK.jac.length = tapeOK.observables.length ∧
    ([(0 : ℚ)].length =
      (tapeOK.trainableParams.filter (fun k => !tapeOK.parIsMeasurement k)).length) :=
  ⟨(adjoint_jacobian_shape B0 dev0 tapeOK none false rOK (by decide!)).1,
   (adjoint_jacobian_shape B0 dev0 tapeOK none false rOK (by decide!)).2.1
     [(0 : ℚ)] (by decide)⟩

/-! ### Claim C3: every walked operation is re-inverted -/

theorem invToggle_invToggle (op : Operation) : op.invToggle.invToggle = op := by
  cases op
  simp [Operation.invToggle]

theorem walkStep_doneOps {S M : Type} (B : Backend S M) (tr : List Nat)
    (st : WalkState S) (op : Operation) :
    (walkStep B tr st op).doneOps = st.doneOps ++ [op] := by
  rw [walkStep]
  cases hg : op.gradMethod <;> simp [invToggle_invToggle]

theorem walk_foldl_doneOps {S M : Type} (B : Backend S M) (tr : List Nat)
    (ops : List Operation) :
    ∀ st : WalkState S, (ops.foldl (walkStep B tr) st).doneOps = st.doneOps ++ ops := by
  induction ops with
  | nil => intro st; simp
  | cons op rest ih =>
    intro st
    rw [List.foldl_cons, ih, walkStep_doneOps]
    simp

/-- C3: after a successful `adjoint_jacobian` call, each walked operation's
inversion direction equals its direction before the call — the operations the
backward walk leaves behind are exactly the expanded operation list it started
from, since every `op.inv()` is matched by the closing `op.inv()` of the same
iteration; the tape's operation list is therefore logically unchanged. -/
theorem adjoint_jacobian_restores_operations {S M : Type} (B : Backend S M)
    (dev : DeviceCfg) (tape : Tape) (ss : Option S) (uds : Bool) (r : AdjointResult)
    (h : adjointJacobian B dev tape ss uds = .ok r) :
    expandOps B.decompositionOf tape.operations = .ok r.finalOps := by
  obtain ⟨expanded, hex, rfl⟩ := adjointJacobian_ok_elim B dev tape ss uds r h
  rw [hex]
  rw [adjointRun]
  dsimp only
  rw [walk_foldl_doneOps]
  rfl

/-- Witness for C3 on `tapeOK`: the final operation list equals the expansion
of the tape's operations. -/
theorem adjoint_jacobian_restores_operations_witness :
    expandOps B0.decompositionOf tapeOK.operations = .ok rOK.finalOps :=
  adjoint_jacobian_restores_operations B0 dev0 tapeOK none false rOK (by decide!)
